import Mathlib

/-!
Shallow embedding of the tool-dispatch / command-execution core of
`jupetta/main.py` (an LLM-driven Cisco IOS network assistant), together
with theorems settling the specification claims about it.

The device boundary (netmiko's `ConnectHandler`) is modelled as a record
of possibly-failing operations (`Device`); each tool's `_run` method is
translated into a pure function returning the result string together with
the trace of session operations it performed, so that claims about
"no session opened" / "commands issued" are statements about the trace.

Pure Python string operations (`str.splitlines`, `str.strip`,
`str.split(maxsplit=1)`, `str.lower`, the `Version\s+([A-Za-z0-9.()]+)`
regular expression) are translated character-for-character below.
-/

/-- Unicode code points accepted by CPython's `Py_UNICODE_ISSPACE`
(`str.isspace`, `str.strip`, whitespace `str.split`, and `\s` of the
`re` module on `str` patterns all use exactly this set). -/
def isPySpace (c : Char) : Bool :=
  c = ' ' || c = '\t' || c = '\n' || c = '\x0b' || c = '\x0c' || c = '\r' ||
  c = '\x1c' || c = '\x1d' || c = '\x1e' || c = '\x1f' || c = '\u0085' ||
  c = '\u00a0' || c = '\u1680' ||
  ('\u2000' ≤ c && c ≤ '\u200a') ||
  c = '\u2028' || c = '\u2029' || c = '\u202f' || c = '\u205f' || c = '\u3000'

/-- Line boundary characters of CPython's `str.splitlines`
(`\r\n` is additionally treated as a single boundary in `splitlinesAux`). -/
def isLineBreak (c : Char) : Bool :=
  c = '\n' || c = '\r' || c = '\x0b' || c = '\x0c' ||
  c = '\x1c' || c = '\x1d' || c = '\x1e' || c = '\u0085' ||
  c = '\u2028' || c = '\u2029'

/-- The character class `[A-Za-z0-9.()]` of `VERSION_REGEX` (main.py line 83). -/
def isVerTokenChar (c : Char) : Bool :=
  ('A' ≤ c && c ≤ 'Z') || ('a' ≤ c && c ≤ 'z') || ('0' ≤ c && c ≤ '9') ||
  c = '.' || c = '(' || c = ')'

/-- `str.splitlines`, on the character list, with an accumulator holding the
(reversed) current line.  A `\r` immediately followed by `\n` is one boundary. -/
def splitlinesAux : List Char → List Char → List (List Char)
  | [], acc => if acc.isEmpty then [] else [acc.reverse]
  | c :: rest, acc =>
    if isLineBreak c then
      match rest with
      | [] => [acc.reverse]
      | r2 :: t =>
        if c = '\r' && r2 = '\n' then acc.reverse :: splitlinesAux t []
        else acc.reverse :: splitlinesAux (r2 :: t) []
    else splitlinesAux rest (c :: acc)

/-- Model of Python `s.splitlines()` (main.py line 87). -/
def splitlines (s : String) : List (List Char) :=
  splitlinesAux s.data []

/-- Python `needle in hay` on strings: `needle` occurs contiguously in `hay`. -/
def containsSeq (needle : List Char) : List Char → Bool
  | [] => needle.isEmpty
  | c :: t => needle.isPrefixOf (c :: t) || containsSeq needle t

/-- The literal `"Version"` searched for on each line (main.py line 88). -/
def versionChars : List Char := ['V', 'e', 'r', 's', 'i', 'o', 'n']

/-- Attempt to match the pattern `Version\s+([A-Za-z0-9.()]+)` at the head of
`cs`, returning the group-1 capture.  Because the `\s` class and the
`[A-Za-z0-9.()]` class are disjoint, the backtracking behaviour of the real
regex engine coincides with taking the maximal whitespace run followed by the
maximal token run. -/
def versionMatchAt (cs : List Char) : Option (List Char) :=
  if versionChars.isPrefixOf cs then
    let rest := cs.drop 7
    let ws := rest.takeWhile isPySpace
    let afterWs := rest.dropWhile isPySpace
    let cap := afterWs.takeWhile isVerTokenChar
    if ws.isEmpty then none
    else if cap.isEmpty then none
    else some cap
  else none

/-- `VERSION_REGEX.search(line)` returning the group-1 capture: the match at
the leftmost position where the whole pattern succeeds (main.py lines 83, 89). -/
def versionSearch : List Char → Option (List Char)
  | [] => none
  | c :: t =>
    match versionMatchAt (c :: t) with
    | some cap => some cap
    | none => versionSearch t

/-- Python `line.strip()`: remove leading and trailing whitespace. -/
def pyStrip (l : List Char) : List Char :=
  ((l.dropWhile isPySpace).reverse.dropWhile isPySpace).reverse

/-- The sentinel returned when no line contains `"Version"` (main.py line 91). -/
def versionSentinel : String := "[Version line not found]"

/-- The loop body of `extract_version` over the list of lines
(main.py lines 87-91). -/
def extractVersionLines : List (List Char) → String
  | [] => versionSentinel
  | l :: rest =>
    if containsSeq versionChars l then
      match versionSearch l with
      | some cap => cap.asString
      | none => (pyStrip l).asString
    else extractVersionLines rest

/-- `extract_version` (main.py lines 86-91): scan lines in order; on the first
line containing `"Version"`, return the regex capture if the regex matches,
else the stripped whole line; if no line contains `"Version"`, return the
sentinel. -/
def extract_version (show_ver_output : String) : String :=
  extractVersionLines (splitlines show_ver_output)

/-- Python `str.lower` on one character.  Only the ASCII range is mapped; the
full Unicode lowercasing differs only on code points that never lowercase to
any of the ASCII letters compared against below (`"shut"`, `"ipv6"`,
`"bgp"`, `"ospf"`), so every comparison made by the embedded code agrees
with CPython's. -/
def pyLowerChar (c : Char) : Char :=
  if 'A' ≤ c && c ≤ 'Z' then Char.ofNat (c.toNat + 32) else c

/-- Python `s.lower()` under the ASCII restriction of `pyLowerChar`. -/
def pyLower (s : String) : String :=
  (s.data.map pyLowerChar).asString

/-- `action.lower().startswith("shut")` (main.py line 187). -/
def startsWithShut (action : List Char) : Bool :=
  List.isPrefixOf ['s', 'h', 'u', 't'] (action.map pyLowerChar)

/-- The shutdown/no-shutdown command chosen from the parsed action
(main.py line 187). -/
def desiredOf (action : List Char) : String :=
  if startsWithShut action then "shutdown" else "no shutdown"

/-- Python `command.split(maxsplit=1)` (whitespace separator), combined with
the two-element unpacking on main.py line 186: `none` models the
`ValueError` raised when the split yields fewer than two elements. -/
def splitMax1 (cs : List Char) : Option (List Char × List Char) :=
  let afterLead := cs.dropWhile isPySpace
  let tok := afterLead.takeWhile (fun c => !isPySpace c)
  let rest0 := afterLead.dropWhile (fun c => !isPySpace c)
  let rest := rest0.dropWhile isPySpace
  if tok.isEmpty then none
  else if rest.isEmpty then none
  else some (tok, rest)

/-- Python `command.split()` (split on whitespace runs, dropping empty
pieces), used only to state "number of whitespace-separated tokens". -/
def pySplitWsAux : List Char → List Char → List (List Char)
  | [], acc => if acc.isEmpty then [] else [acc.reverse]
  | c :: t, acc =>
    if isPySpace c then
      if acc.isEmpty then pySplitWsAux t [] else acc.reverse :: pySplitWsAux t []
    else pySplitWsAux t (c :: acc)

/-- The whitespace-separated tokens of a string. -/
def pySplitWs (cs : List Char) : List (List Char) :=
  pySplitWsAux cs []

/-- The `"shutdown"` literal tested against the running config
(main.py line 190). -/
def shutdownChars : List Char :=
  ['s', 'h', 'u', 't', 'd', 'o', 'w', 'n']

/-- One session-level operation performed against the device, recorded in
order in the trace returned by each tool run. -/
inductive SessOp where
  | sessionOpen
  | sendCommand (cmd : String)
  | enable
  | configMode
  | exitConfigMode
  | sessionClose
deriving DecidableEq, Repr

/-- The device boundary (netmiko `ConnectHandler`): each operation either
succeeds or raises an exception carrying a message string.  `connect` models
`ConnectHandler(**DEVICE)` itself; the remaining fields model the
corresponding `conn.` methods. -/
structure Device where
  connect : Except String Unit
  send_command : String → Except String String
  enable : Except String Unit
  config_mode : Except String Unit
  exit_config_mode : Except String Unit

/-- A step of tool-body code: the outcome (normal return or exception) and
the session operations performed. -/
def Step (α : Type) : Type := Except String α × List SessOp

/-- Sequencing of steps: an exception aborts the remaining body, but the
operations already performed stay in the trace. -/
def stepBind {α β : Type} (x : Step α) (f : α → Step β) : Step β :=
  match x with
  | (Except.error e, tr) => (Except.error e, tr)
  | (Except.ok a, tr) =>
    match f a with
    | (r, tr2) => (r, tr ++ tr2)

/-- `conn.send_command(cmd)`. -/
def opSend (dev : Device) (cmd : String) : Step String :=
  (dev.send_command cmd, [SessOp.sendCommand cmd])

/-- `conn.enable()`. -/
def opEnable (dev : Device) : Step Unit :=
  (dev.enable, [SessOp.enable])

/-- `conn.config_mode()`. -/
def opConfigMode (dev : Device) : Step Unit :=
  (dev.config_mode, [SessOp.configMode])

/-- `conn.exit_config_mode()`. -/
def opExitConfigMode (dev : Device) : Step Unit :=
  (dev.exit_config_mode, [SessOp.exitConfigMode])

/-- `with ConnectHandler(**DEVICE) as conn: ...` inside `try/except`:
a connection failure yields the `[ERROR]` string with no session opened;
otherwise the session is opened, the body runs, the session is closed on
both the normal and the exception path, and an exception is converted to
the `[ERROR] ` string (the `except Exception as e` branches of each tool). -/
def runSession (dev : Device) (body : Device → Step String) : String × List SessOp :=
  match dev.connect with
  | Except.error e => ("[ERROR] " ++ e, [])
  | Except.ok _ =>
    match body dev with
    | (Except.ok r, tr) => (r, SessOp.sessionOpen :: (tr ++ [SessOp.sessionClose]))
    | (Except.error e, tr) =>
      ("[ERROR] " ++ e, SessOp.sessionOpen :: (tr ++ [SessOp.sessionClose]))

/-- `GetVersionTool._run` (main.py lines 102-108). -/
def getVersion_run (dev : Device) : String × List SessOp :=
  runSession dev (fun conn =>
    stepBind (opSend conn "show version") (fun output =>
      (Except.ok (extract_version output), [])))

/-- The command selected by `GetRouteTableTool._run` (main.py line 122). -/
def routeTableCmd (protocol : String) : String :=
  if pyLower protocol == "ipv6" then "show ipv6 route" else "show ip route"

/-- `GetRouteTableTool._run` (main.py lines 121-127). -/
def getRouteTable_run (dev : Device) (protocol : String) : String × List SessOp :=
  runSession dev (fun conn => opSend conn (routeTableCmd protocol))

/-- `GetRouteProtoStateTool._cmd_map.get` (main.py lines 140-143, 146). -/
def cmd_map (proto : String) : Option String :=
  if proto == "bgp" then some "show ip bgp summary"
  else if proto == "ospf" then some "show ip ospf neighbor"
  else none

/-- `GetRouteProtoStateTool._run` (main.py lines 145-153): the validation
check precedes the `try` block, so an unrecognized protocol returns the
error string without touching the device. -/
def getRouteProtoState_run (dev : Device) (proto : String) : String × List SessOp :=
  match cmd_map (pyLower proto) with
  | none => ("[ERROR] proto must be 'bgp' or 'ospf'", [])
  | some cmd => runSession dev (fun conn => opSend conn cmd)

/-- `PingTool._run` (main.py lines 166-171). -/
def ping_run (dev : Device) (target : String) : String × List SessOp :=
  runSession dev (fun conn => opSend conn ("ping " ++ target))

/-- `IfaceConfigTool._run` (main.py lines 184-202).  The `command.split`
unpacking failure (`ValueError`) is the `none` branch; otherwise the
running config is read first and the mutation is skipped when the presence
of `"shutdown"` in it already matches the desired state. -/
def ifaceConfig_run (dev : Device) (command : String) : String × List SessOp :=
  match splitMax1 command.data with
  | none => ("[ERROR] input format: '<iface> shutdown|noshutdown'", [])
  | some (ifaceL, actionL) =>
    let iface := ifaceL.asString
    let desired := desiredOf actionL
    runSession dev (fun conn =>
      stepBind (opSend conn ("show run interface " ++ iface)) (fun current_cfg =>
        let already := containsSeq shutdownChars current_cfg.data == (desired == "shutdown")
        if already then
          (Except.ok ("[SKIP] " ++ iface ++ " は既に " ++ desired ++ " 状態です。"), [])
        else
          stepBind (opEnable conn) (fun _ =>
            stepBind (opConfigMode conn) (fun _ =>
              stepBind (opSend conn ("interface " ++ iface)) (fun _ =>
                stepBind (opSend conn desired) (fun _ =>
                  stepBind (opExitConfigMode conn) (fun _ =>
                    (Except.ok ("[OK] " ++ iface ++ " を " ++ desired ++ " しました。"),
                     []))))))))

/-- A device on which every operation succeeds and every command returns
`out`; used to instantiate the theorems at concrete inputs. -/
def constDevice (out : String) : Device where
  connect := Except.ok ()
  send_command := fun _ => Except.ok out
  enable := Except.ok ()
  config_mode := Except.ok ()
  exit_config_mode := Except.ok ()

/-- The result string carries the fixed error marker `"[ERROR] "`. -/
def isErrorMarked (s : String) : Bool :=
  List.isPrefixOf ("[ERROR] ".data) s.data

/-- The result string carries the skip marker `"[SKIP] "`. -/
def isSkipMarked (s : String) : Bool :=
  List.isPrefixOf ("[SKIP] ".data) s.data

/-- The result string carries the success marker `"[OK] "`. -/
def isOkMarked (s : String) : Bool :=
  List.isPrefixOf ("[OK] ".data) s.data

theorem prefixOf_iff (l₁ l₂ : List Char) : l₁.isPrefixOf l₂ = true ↔ l₁ <+: l₂ :=
  List.isPrefixOf_iff_prefix

theorem containsSeq_iff (needle hay : List Char) :
    containsSeq needle hay = true ↔ needle <:+: hay := by
  induction hay with
  | nil =>
    simp only [containsSeq, List.isEmpty_iff, List.infix_nil]
  | cons c t ih =>
    simp only [containsSeq, Bool.or_eq_true, prefixOf_iff, ih, List.infix_cons_iff]

theorem prefix_of_append_cons (ver xs ys : List Char) (b : Char)
    (hb : b ∉ ver) (h : ver <+: xs ++ b :: ys) : ver <+: xs := by
  induction ver generalizing xs with
  | nil => exact List.nil_prefix
  | cons v vr ih =>
    cases xs with
    | nil =>
      rw [List.nil_append] at h
      obtain ⟨hv, -⟩ := List.cons_prefix_cons.mp h
      subst hv
      exact absurd (List.mem_cons_self v vr) hb
    | cons x xt =>
      rw [List.cons_append] at h
      obtain ⟨hv, htl⟩ := List.cons_prefix_cons.mp h
      have hb2 : b ∉ vr := fun hm => hb (List.mem_cons_of_mem v hm)
      exact List.cons_prefix_cons.mpr ⟨hv, ih xt hb2 htl⟩

theorem infix_of_append_cons (ver xs ys : List Char) (b : Char)
    (hb : b ∉ ver) (h : ver <:+: xs ++ b :: ys) : ver <:+: xs ∨ ver <:+: ys := by
  induction xs with
  | nil =>
    rw [List.nil_append] at h
    rcases List.infix_cons_iff.mp h with hpre | hinf
    · have h0 : ver <+: ([] : List Char) :=
        prefix_of_append_cons ver [] ys b hb (by simpa using hpre)
      left
      rw [List.prefix_nil.mp h0]
    · exact Or.inr hinf
  | cons x xt ih =>
    rw [List.cons_append] at h
    rcases List.infix_cons_iff.mp h with hpre | hinf
    · have hp : ver <+: x :: xt :=
        prefix_of_append_cons ver (x :: xt) ys b hb (by simpa using hpre)
      obtain ⟨t, ht⟩ := hp
      exact Or.inl ⟨[], t, by simpa using ht⟩
    · rcases ih hinf with h1 | h2
      · exact Or.inl (List.infix_cons h1)
      · exact Or.inr h2

theorem infix_dropWhile_of_not (p : Char → Bool) (ver l : List Char)
    (hne : ver ≠ []) (hv : ∀ c ∈ ver, p c = false) (h : ver <:+: l) :
    ver <:+: l.dropWhile p := by
  induction l with
  | nil => exact absurd (List.infix_nil.mp h) hne
  | cons x t ih =>
    by_cases hx : p x = true
    · rw [List.dropWhile_cons_of_pos hx]
      apply ih
      rcases List.infix_cons_iff.mp h with hpre | hinf
      · cases ver with
        | nil => exact absurd rfl hne
        | cons v vr =>
          obtain ⟨hv1, -⟩ := List.cons_prefix_cons.mp hpre
          have hfalse := hv v (List.mem_cons_self v vr)
          rw [hv1, hx] at hfalse
          exact absurd hfalse (by simp)
      · exact hinf
    · rw [List.dropWhile_cons_of_neg hx]
      exact h

theorem infix_ne_nil (ver m : List Char) (hne : ver ≠ []) (h : ver <:+: m) :
    m ≠ [] := by
  intro hm
  subst hm
  exact hne (List.infix_nil.mp h)

theorem infix_pyStrip (ver l : List Char) (hne : ver ≠ [])
    (hv : ∀ c ∈ ver, isPySpace c = false) (h : ver <:+: l) :
    ver <:+: pyStrip l := by
  unfold pyStrip
  have h1 : ver <:+: l.dropWhile isPySpace :=
    infix_dropWhile_of_not isPySpace ver l hne hv h
  have h2 : ver.reverse <:+: (l.dropWhile isPySpace).reverse :=
    List.reverse_infix.mpr h1
  have hner : ver.reverse ≠ [] := by simpa using hne
  have hvr : ∀ c ∈ ver.reverse, isPySpace c = false := by
    intro c hc
    exact hv c (List.mem_reverse.mp hc)
  have h3 := infix_dropWhile_of_not isPySpace ver.reverse
    ((l.dropWhile isPySpace).reverse) hner hvr h2
  have h4 : ver.reverse <:+:
      (((l.dropWhile isPySpace).reverse.dropWhile isPySpace).reverse).reverse := by
    simpa using h3
  exact List.reverse_infix.mp h4

theorem splitlinesAux_cons_break (c r2 : Char) (t acc : List Char)
    (hc : isLineBreak c = true) (hrn : ¬(c = '\r' && r2 = '\n') = true) :
    splitlinesAux (c :: r2 :: t) acc = acc.reverse :: splitlinesAux (r2 :: t) [] := by
  rw [splitlinesAux.eq_3]
  simp [hc, hrn]

theorem splitlinesAux_cons_keep (c : Char) (rest acc : List Char)
    (hc : ¬ isLineBreak c = true) :
    splitlinesAux (c :: rest) acc = splitlinesAux rest (c :: acc) := by
  cases rest with
  | nil => rw [splitlinesAux.eq_2]; simp [hc]
  | cons r2 t => rw [splitlinesAux.eq_3]; simp [hc]

/-- A nonempty occurrence of `ver` containing no line-boundary characters
survives inside one of the lines produced by `splitlinesAux`. -/
theorem mem_splitlinesAux (ver : List Char) (hne : ver ≠ [])
    (hnb : ∀ c ∈ ver, isLineBreak c = false) (cs acc : List Char) :
    ver <:+: acc.reverse ++ cs →
      ∃ l, l ∈ splitlinesAux cs acc ∧ ver <:+: l := by
  induction cs, acc using splitlinesAux.induct with
  | case1 acc hacc =>
    intro h
    rw [List.append_nil] at h
    rw [List.isEmpty_iff] at hacc
    subst hacc
    rw [List.reverse_nil] at h
    exact absurd (List.infix_nil.mp h) hne
  | case2 acc hacc =>
    intro h
    rw [List.append_nil] at h
    refine ⟨acc.reverse, ?_, h⟩
    rw [splitlinesAux.eq_1]
    simp [hacc]
  | case3 c acc hc =>
    intro h
    have hcv : c ∉ ver := fun hm => absurd hc (by simp [hnb c hm])
    rcases infix_of_append_cons ver acc.reverse [] c hcv h with h1 | h2
    · refine ⟨acc.reverse, ?_, h1⟩
      rw [splitlinesAux.eq_2]
      simp [hc]
    · exact absurd (List.infix_nil.mp h2) hne
  | case4 c acc hc r2 t hrn ih =>
    intro h
    rw [Bool.and_eq_true, decide_eq_true_eq, decide_eq_true_eq] at hrn
    obtain ⟨hc2, hr2⟩ := hrn
    subst hc2
    subst hr2
    have hrv : ('\r' : Char) ∉ ver := fun hm => absurd hc (by simp [hnb _ hm])
    have hnv : ('\n' : Char) ∉ ver := fun hm => absurd (hnb _ hm) (by decide)
    have hred : splitlinesAux ('\r' :: '\n' :: t) acc =
        acc.reverse :: splitlinesAux t [] := rfl
    rcases infix_of_append_cons ver acc.reverse ('\n' :: t) '\r' hrv h with h1 | h2
    · refine ⟨acc.reverse, ?_, h1⟩
      rw [hred]
      exact List.mem_cons_self _ _
    · rcases infix_of_append_cons ver [] t '\n' hnv (by simpa using h2) with h3 | h4
      · exact absurd (List.infix_nil.mp h3) hne
      · rcases ih (by simpa using h4) with ⟨l, hl, hvl⟩
        refine ⟨l, ?_, hvl⟩
        rw [hred]
        exact List.mem_cons_of_mem _ hl
  | case5 c acc hc r2 t hrn ih =>
    intro h
    have hcv : c ∉ ver := fun hm => absurd hc (by simp [hnb c hm])
    have hred := splitlinesAux_cons_break c r2 t acc hc (by simpa using hrn)
    rcases infix_of_append_cons ver acc.reverse (r2 :: t) c hcv h with h1 | h2
    · refine ⟨acc.reverse, ?_, h1⟩
      rw [hred]
      exact List.mem_cons_self _ _
    · rcases ih (by simpa using h2) with ⟨l, hl, hvl⟩
      refine ⟨l, ?_, hvl⟩
      rw [hred]
      exact List.mem_cons_of_mem _ hl
  | case6 c rest acc hc ih =>
    intro h
    rw [splitlinesAux_cons_keep c rest acc hc]
    apply ih
    have hrw : (c :: acc).reverse ++ rest = acc.reverse ++ c :: rest := by
      simp
    rw [hrw]
    exact h

theorem versionMatchAt_some_ne (cs cap : List Char)
    (h : versionMatchAt cs = some cap) : cap ≠ [] := by
  unfold versionMatchAt at h
  split at h
  · dsimp only at h
    split at h
    · exact absurd h (by simp)
    · split at h
      · exact absurd h (by simp)
      · rename_i hcap
        obtain rfl : _ = cap := Option.some.inj h
        intro hnil
        rw [List.isEmpty_iff] at hcap
        exact hcap hnil
  · exact absurd h (by simp)

theorem versionSearch_some_ne (l cap : List Char)
    (h : versionSearch l = some cap) : cap ≠ [] := by
  induction l with
  | nil => exact absurd h (by simp [versionSearch])
  | cons c t ih =>
    rw [versionSearch] at h
    split at h
    · rename_i cap2 hm
      obtain rfl : cap2 = cap := Option.some.inj h
      exact versionMatchAt_some_ne _ _ hm
    · exact ih h

theorem extractVersionLines_eq_find (lines : List (List Char)) :
    extractVersionLines lines =
      match lines.find? (fun l => containsSeq versionChars l) with
      | none => versionSentinel
      | some l =>
        match versionSearch l with
        | some cap => cap.asString
        | none => (pyStrip l).asString := by
  induction lines with
  | nil => rfl
  | cons l rest ih =>
    by_cases hl : containsSeq versionChars l = true
    · rw [extractVersionLines, if_pos hl, List.find?_cons_of_pos _ hl]
    · rw [extractVersionLines, if_neg hl, List.find?_cons_of_neg _ (by simpa using hl)]
      exact ih

theorem versionChars_no_space : ∀ c ∈ versionChars, isPySpace c = false := by
  decide

theorem extractVersionLines_ne_empty (lines : List (List Char)) :
    extractVersionLines lines ≠ "" := by
  induction lines with
  | nil =>
    rw [extractVersionLines]
    decide
  | cons l rest ih =>
    by_cases hl : containsSeq versionChars l = true
    · rw [extractVersionLines, if_pos hl]
      cases hm : versionSearch l with
      | some cap =>
        have hcap : cap ≠ [] := versionSearch_some_ne l cap hm
        intro he
        exact hcap (congrArg String.data he)
      | none =>
        have hver : versionChars <:+: l := (containsSeq_iff _ _).mp hl
        have hstr : versionChars <:+: pyStrip l :=
          infix_pyStrip versionChars l (by decide) versionChars_no_space hver
        have hnn : pyStrip l ≠ [] := infix_ne_nil versionChars _ (by decide) hstr
        intro he
        exact hnn (congrArg String.data he)
    · rw [extractVersionLines, if_neg hl]
      exact ih

/-- C3: `extract_version` scans lines in order; on the first line containing
the substring `"Version"` it returns the regex capture of the token following
`"Version"` if the regex matches, else that stripped whole line; if no line
contains `"Version"` it returns the fixed sentinel.  On the concrete input
`"Cisco IOS Software, Version 15.2(4)M3, RELEASE SOFTWARE"` it returns
`"15.2(4)M3"`. -/
theorem extract_version_spec (s : String) :
    (extract_version s =
      match (splitlines s).find? (fun l => containsSeq versionChars l) with
      | none => versionSentinel
      | some l =>
        match versionSearch l with
        | some cap => cap.asString
        | none => (pyStrip l).asString)
    ∧ extract_version "Cisco IOS Software, Version 15.2(4)M3, RELEASE SOFTWARE" =
      "15.2(4)M3" := by
  constructor
  · exact extractVersionLines_eq_find (splitlines s)
  · decide

/-- C9: `extract_version` is total by construction and, whenever the input
contains the substring `"Version"`, the returned string is non-empty and is
either a regex-captured token or the stripped form of a line containing
`"Version"`. -/
theorem extract_version_total (s : String)
    (h : containsSeq versionChars s.data = true) :
    extract_version s ≠ "" ∧
      ∃ l, l ∈ splitlines s ∧ containsSeq versionChars l = true ∧
        ((∃ cap, versionSearch l = some cap ∧ extract_version s = cap.asString) ∨
          (versionSearch l = none ∧ extract_version s = (pyStrip l).asString)) := by
  refine ⟨extractVersionLines_ne_empty (splitlines s), ?_⟩
  have hver : versionChars <:+: s.data := (containsSeq_iff _ _).mp h
  have hmem := mem_splitlinesAux versionChars (by decide)
    (by decide) s.data [] (by simpa using hver)
  obtain ⟨l0, hl0, hvl0⟩ := hmem
  have hsome : ((splitlines s).find? (fun l => containsSeq versionChars l)).isSome := by
    rw [List.find?_isSome]
    exact ⟨l0, hl0, (containsSeq_iff _ _).mpr hvl0⟩
  obtain ⟨l, hl⟩ := Option.isSome_iff_exists.mp hsome
  have hmeml : l ∈ splitlines s := List.mem_of_find?_eq_some hl
  have hcont : containsSeq versionChars l = true := List.find?_some hl
  refine ⟨l, hmeml, hcont, ?_⟩
  have heq := extractVersionLines_eq_find (splitlines s)
  rw [hl] at heq
  dsimp only at heq
  cases hm : versionSearch l with
  | some cap =>
    rw [hm] at heq
    dsimp only at heq
    exact Or.inl ⟨cap, rfl, heq⟩
  | none =>
    rw [hm] at heq
    dsimp only at heq
    exact Or.inr ⟨rfl, heq⟩

/-- Witness for C9 at the concrete input `"Router ... Version 12.4"`. -/
theorem extract_version_total_witness :
    extract_version "Router uptime\nCisco IOS, Version 12.4" ≠ "" ∧
      ∃ l, l ∈ splitlines "Router uptime\nCisco IOS, Version 12.4" ∧
        containsSeq versionChars l = true ∧
        ((∃ cap, versionSearch l = some cap ∧
            extract_version "Router uptime\nCisco IOS, Version 12.4" = cap.asString) ∨
          (versionSearch l = none ∧
            extract_version "Router uptime\nCisco IOS, Version 12.4" =
              (pyStrip l).asString)) :=
  extract_version_total "Router uptime\nCisco IOS, Version 12.4" (by decide)

theorem head_dropWhile_false (p : Char → Bool) (cs : List Char) (c : Char)
    (t : List Char) (hd : cs.dropWhile p = c :: t) : p c = false := by
  induction cs with
  | nil => exact absurd hd (by simp)
  | cons x xs ih =>
    by_cases hx : p x = true
    · rw [List.dropWhile_cons_of_pos hx] at hd
      exact ih hd
    · rw [List.dropWhile_cons_of_neg hx] at hd
      obtain ⟨rfl, -⟩ := List.cons.inj hd
      simpa using hx

theorem pySplitWsAux_ne_nil (cs : List Char) :
    ∀ acc : List Char, acc ≠ [] → pySplitWsAux cs acc ≠ [] := by
  induction cs with
  | nil =>
    intro acc hacc
    rw [pySplitWsAux]
    simp [hacc]
  | cons c t ih =>
    intro acc hacc
    rw [pySplitWsAux]
    by_cases hc : isPySpace c = true
    · simp only [hc, if_true]
      rw [if_neg (by simpa using hacc)]
      simp
    · rw [if_neg hc]
      exact ih (c :: acc) (by simp)

theorem pySplitWsAux_dropLead (cs : List Char) :
    pySplitWsAux cs [] = pySplitWsAux (cs.dropWhile isPySpace) [] := by
  induction cs with
  | nil => rfl
  | cons c t ih =>
    by_cases hc : isPySpace c = true
    · rw [pySplitWsAux, if_pos hc, List.dropWhile_cons_of_pos hc]
      simpa using ih
    · rw [List.dropWhile_cons_of_neg hc]

theorem pySplitWsAux_token (tok : List Char) :
    ∀ (cs acc : List Char), (∀ c ∈ tok, isPySpace c = false) →
      pySplitWsAux (tok ++ cs) acc = pySplitWsAux cs (tok.reverse ++ acc) := by
  induction tok with
  | nil => intro cs acc _; rfl
  | cons v vt ih =>
    intro cs acc hall
    have hv : isPySpace v = false := hall v (List.mem_cons_self v vt)
    rw [List.cons_append, pySplitWsAux, if_neg (by simp [hv])]
    rw [ih cs (v :: acc) (fun c hc => hall c (List.mem_cons_of_mem v hc))]
    congr 1
    simp

theorem pySplitWsAux_nil_iff (u : List Char) :
    pySplitWsAux u [] = [] ↔ u.dropWhile isPySpace = [] := by
  induction u with
  | nil => simp [pySplitWsAux]
  | cons c t ih =>
    by_cases hc : isPySpace c = true
    · rw [pySplitWsAux, if_pos hc, List.dropWhile_cons_of_pos hc]
      simpa using ih
    · rw [pySplitWsAux, if_neg hc, List.dropWhile_cons_of_neg hc]
      have h1 := pySplitWsAux_ne_nil t [c] (by simp)
      simp [h1]

/-- `command.split(maxsplit=1)` yields fewer than two pieces exactly when the
string holds fewer than two whitespace-separated tokens. -/
theorem splitMax1_none_iff (cs : List Char) :
    splitMax1 cs = none ↔ (pySplitWs cs).length < 2 := by
  unfold pySplitWs
  rw [pySplitWsAux_dropLead cs]
  cases hd : cs.dropWhile isPySpace with
  | nil =>
    simp [splitMax1, hd, pySplitWsAux]
  | cons c t =>
    have hc : isPySpace c = false := head_dropWhile_false isPySpace cs c t hd
    have htok : (c :: t).takeWhile (fun x => !isPySpace x) =
        c :: t.takeWhile (fun x => !isPySpace x) :=
      List.takeWhile_cons_of_pos (by simp [hc])
    have hrest0 : (c :: t).dropWhile (fun x => !isPySpace x) =
        t.dropWhile (fun x => !isPySpace x) :=
      List.dropWhile_cons_of_pos (by simp [hc])
    have hlhs : splitMax1 cs =
        if ((t.dropWhile (fun x => !isPySpace x)).dropWhile isPySpace).isEmpty
        then none
        else some (c :: t.takeWhile (fun x => !isPySpace x),
          (t.dropWhile (fun x => !isPySpace x)).dropWhile isPySpace) := by
      simp only [splitMax1]
      rw [hd, htok, hrest0]
      simp
    have htokT_nospace : ∀ x ∈ t.takeWhile (fun x => !isPySpace x),
        isPySpace x = false := by
      intro x hx
      have := List.mem_takeWhile_imp hx
      simpa using this
    have hstep1 : pySplitWsAux (c :: t) [] = pySplitWsAux t [c] := by
      rw [pySplitWsAux, if_neg (by simp [hc])]
    have hstep2 : pySplitWsAux t [c] =
        pySplitWsAux (t.dropWhile (fun x => !isPySpace x))
          ((t.takeWhile (fun x => !isPySpace x)).reverse ++ [c]) := by
      conv_lhs => rw [← List.takeWhile_append_dropWhile (fun x => !isPySpace x) t]
      exact pySplitWsAux_token _ _ _ htokT_nospace
    rw [hstep1, hstep2, hlhs]
    cases hrr : t.dropWhile (fun x => !isPySpace x) with
    | nil =>
      rw [pySplitWsAux]
      simp
    | cons d u =>
      have hd2 : isPySpace d = true := by
        have := head_dropWhile_false (fun x => !isPySpace x) t d u hrr
        simpa using this
      have haccE : ¬ ((t.takeWhile (fun x => !isPySpace x)).reverse ++ [c]).isEmpty = true := by
        simp
      rw [pySplitWsAux, if_pos hd2, if_neg haccE,
        List.dropWhile_cons_of_pos hd2, pySplitWsAux_dropLead u]
      cases hru : u.dropWhile isPySpace with
      | nil =>
        rw [pySplitWsAux]
        simp
      | cons r rr =>
        have hr : isPySpace r = false := head_dropWhile_false isPySpace u r rr hru
        have hne2 : pySplitWsAux (r :: rr) [] ≠ [] := by
          rw [pySplitWsAux, if_neg (by simp [hr])]
          exact pySplitWsAux_ne_nil rr [r] (by simp)
        have hpos : 0 < (pySplitWsAux (r :: rr) []).length :=
          List.length_pos.mpr hne2
        simp only [List.isEmpty_cons, List.length_cons]
        rw [if_neg (by simp)]
        constructor
        · intro hfalse
          exact absurd hfalse (by simp)
        · intro hlt
          exact absurd hlt (by omega)

/-- Successful `split(maxsplit=1)`: the first whitespace-separated token
becomes the first component and the entire remainder of the string (after the
separating whitespace run) becomes the second. -/
theorem splitMax1_eq_some (cs tok rest : List Char)
    (h : splitMax1 cs = some (tok, rest)) :
    ∃ ws1 ws2, cs = ws1 ++ tok ++ ws2 ++ rest ∧
      (∀ c ∈ ws1, isPySpace c = true) ∧ tok ≠ [] ∧
      (∀ c ∈ tok, isPySpace c = false) ∧ ws2 ≠ [] ∧
      (∀ c ∈ ws2, isPySpace c = true) := by
  simp only [splitMax1] at h
  split at h
  · exact absurd h (by simp)
  · rename_i htokne
    split at h
    · exact absurd h (by simp)
    · rename_i hrestne
      have h2 := Option.some.inj h
      rw [Prod.mk.injEq] at h2
      obtain ⟨ha, hb⟩ := h2
      subst ha
      subst hb
      refine ⟨cs.takeWhile isPySpace,
        ((cs.dropWhile isPySpace).dropWhile (fun c => !isPySpace c)).takeWhile isPySpace,
        ?_, ?_, ?_, ?_, ?_, ?_⟩
      · have e1 : cs = cs.takeWhile isPySpace ++ cs.dropWhile isPySpace :=
          (List.takeWhile_append_dropWhile isPySpace cs).symm
        have e2 : cs.dropWhile isPySpace =
            (cs.dropWhile isPySpace).takeWhile (fun c => !isPySpace c) ++
              (cs.dropWhile isPySpace).dropWhile (fun c => !isPySpace c) :=
          (List.takeWhile_append_dropWhile _ _).symm
        have e3 : (cs.dropWhile isPySpace).dropWhile (fun c => !isPySpace c) =
            ((cs.dropWhile isPySpace).dropWhile (fun c => !isPySpace c)).takeWhile
                isPySpace ++
              ((cs.dropWhile isPySpace).dropWhile (fun c => !isPySpace c)).dropWhile
                isPySpace :=
          (List.takeWhile_append_dropWhile _ _).symm
        conv_lhs => rw [e1]
        rw [e2, e3]
        simp [List.append_assoc]
      · intro c hc
        exact List.mem_takeWhile_imp hc
      · intro hnil
        exact htokne (by simp [hnil])
      · intro c hc
        have := List.mem_takeWhile_imp hc
        simpa using this
      · cases hrr : (cs.dropWhile isPySpace).dropWhile (fun c => !isPySpace c) with
        | nil =>
          exact absurd (by rw [hrr]; rfl) hrestne
        | cons d u =>
          have hd2 : isPySpace d = true := by
            have := head_dropWhile_false (fun c => !isPySpace c) _ d u hrr
            simpa using this
          rw [List.takeWhile_cons_of_pos hd2]
          simp
      · intro c hc
        exact List.mem_takeWhile_imp hc

/-- C7: an IfaceConfig argument holding fewer than two whitespace-separated
tokens fails to parse: the run returns the in-band format-error string and
performs no session operation at all. -/
theorem ifaceConfig_bad_format (dev : Device) (command : String)
    (h : (pySplitWs command.data).length < 2) :
    ifaceConfig_run dev command =
      ("[ERROR] input format: '<iface> shutdown|noshutdown'", []) := by
  have hnone : splitMax1 command.data = none := (splitMax1_none_iff _).mpr h
  simp only [ifaceConfig_run, hnone]

/-- Witness for C7 at the one-token argument `"Gi0/1"`. -/
theorem ifaceConfig_bad_format_witness :
    (pySplitWs ("Gi0/1" : String).data).length < 2 ∧
      ifaceConfig_run (constDevice "cfg") "Gi0/1" =
        ("[ERROR] input format: '<iface> shutdown|noshutdown'", []) :=
  ⟨by decide, ifaceConfig_bad_format (constDevice "cfg") "Gi0/1" (by decide)⟩

/-- C10: an IfaceConfig argument holding at least two whitespace-separated
tokens always parses: the first token is the interface name, the entire
remainder of the string is the action, and an action that does not start
with `"shut"` (case-insensitively) selects `"no shutdown"`; no validation
error is possible in this case. -/
theorem ifaceConfig_parse_lenient (command : String)
    (h : 2 ≤ (pySplitWs command.data).length) :
    ∃ ifaceL actionL, splitMax1 command.data = some (ifaceL, actionL) ∧
      (∃ ws1 ws2, command.data = ws1 ++ ifaceL ++ ws2 ++ actionL ∧
        (∀ c ∈ ws1, isPySpace c = true) ∧ ifaceL ≠ [] ∧
        (∀ c ∈ ifaceL, isPySpace c = false) ∧ ws2 ≠ [] ∧
        (∀ c ∈ ws2, isPySpace c = true)) ∧
      (startsWithShut actionL = false → desiredOf actionL = "no shutdown") := by
  have hsome : splitMax1 command.data ≠ none := by
    intro hn
    have := (splitMax1_none_iff _).mp hn
    omega
  cases hp : splitMax1 command.data with
  | none => exact absurd hp hsome
  | some p =>
    obtain ⟨ifaceL, actionL⟩ := p
    refine ⟨ifaceL, actionL, rfl, ?_, ?_⟩
    · exact splitMax1_eq_some _ _ _ hp
    · intro hf
      simp [desiredOf, hf]

/-- Witness for C10 at the argument `"Gi0/1 up"` (unrecognized action). -/
theorem ifaceConfig_parse_lenient_witness :
    2 ≤ (pySplitWs ("Gi0/1 up" : String).data).length ∧
      ∃ ifaceL actionL,
        splitMax1 ("Gi0/1 up" : String).data = some (ifaceL, actionL) ∧
        (∃ ws1 ws2, ("Gi0/1 up" : String).data = ws1 ++ ifaceL ++ ws2 ++ actionL ∧
          (∀ c ∈ ws1, isPySpace c = true) ∧ ifaceL ≠ [] ∧
          (∀ c ∈ ifaceL, isPySpace c = false) ∧ ws2 ≠ [] ∧
          (∀ c ∈ ws2, isPySpace c = true)) ∧
        (startsWithShut actionL = false → desiredOf actionL = "no shutdown") :=
  ⟨by decide, ifaceConfig_parse_lenient "Gi0/1 up" (by decide)⟩

/-- C1: when the presence of `"shutdown"` in the `show run interface` output
already equals the desired state, the run returns the `[SKIP]` result and the
session sees only the inspection command: privileged mode, configuration
mode and the mutation commands are never entered.  Since the run is a pure
function of the device behaviour, a repeated invocation with the same
desired state yields the same skip result and the same command-free trace,
so the interface is never toggled. -/
theorem ifaceConfig_skip (dev : Device) (command : String)
    (ifaceL actionL : List Char) (cfg : String)
    (hp : splitMax1 command.data = some (ifaceL, actionL))
    (hc : dev.connect = Except.ok ())
    (hs : dev.send_command ("show run interface " ++ ifaceL.asString) = Except.ok cfg)
    (heq : containsSeq shutdownChars cfg.data = startsWithShut actionL) :
    ifaceConfig_run dev command =
      ("[SKIP] " ++ ifaceL.asString ++ " は既に " ++ desiredOf actionL ++
         " 状態です。",
       [SessOp.sessionOpen,
        SessOp.sendCommand ("show run interface " ++ ifaceL.asString),
        SessOp.sessionClose]) := by
  have halready : (containsSeq shutdownChars cfg.data ==
      (desiredOf actionL == "shutdown")) = true := by
    cases hsw : startsWithShut actionL with
    | true =>
      rw [heq, hsw]
      simp [desiredOf, hsw]
    | false =>
      rw [heq, hsw]
      simp only [desiredOf, hsw, if_false, Bool.if_false_right]
      decide
  simp only [ifaceConfig_run, hp, runSession, hc, stepBind, opSend, hs, halready,
    if_true]
  simp

/-- Witness for C1: a device already shut down, asked to shut down again. -/
theorem ifaceConfig_skip_witness :
    ifaceConfig_run (constDevice "interface Gi0/1\n shutdown\nend")
        "Gi0/1 shutdown" =
      ("[SKIP] " ++ (("Gi0/1" : String).data).asString ++ " は既に " ++
         desiredOf ("shutdown" : String).data ++ " 状態です。",
       [SessOp.sessionOpen,
        SessOp.sendCommand ("show run interface " ++ (("Gi0/1" : String).data).asString),
        SessOp.sessionClose]) :=
  ifaceConfig_skip (constDevice "interface Gi0/1\n shutdown\nend") "Gi0/1 shutdown"
    ("Gi0/1" : String).data ("shutdown" : String).data
    "interface Gi0/1\n shutdown\nend" (by decide) rfl rfl (by decide)

/-- C4: when the device is not already in the desired state, the run enters
privileged mode, enters configuration mode, selects the interface context,
sends the shutdown / no-shutdown command, exits configuration mode, and
returns the `[OK]` result naming the interface. -/
theorem ifaceConfig_apply (dev : Device) (command : String)
    (ifaceL actionL : List Char) (cfg o1 o2 : String)
    (hp : splitMax1 command.data = some (ifaceL, actionL))
    (hc : dev.connect = Except.ok ())
    (hs : dev.send_command ("show run interface " ++ ifaceL.asString) = Except.ok cfg)
    (hne : containsSeq shutdownChars cfg.data = ! startsWithShut actionL)
    (hen : dev.enable = Except.ok ())
    (hcm : dev.config_mode = Except.ok ())
    (hi : dev.send_command ("interface " ++ ifaceL.asString) = Except.ok o1)
    (hdc : dev.send_command (desiredOf actionL) = Except.ok o2)
    (hx : dev.exit_config_mode = Except.ok ()) :
    ifaceConfig_run dev command =
      ("[OK] " ++ ifaceL.asString ++ " を " ++ desiredOf actionL ++ " しました。",
       [SessOp.sessionOpen,
        SessOp.sendCommand ("show run interface " ++ ifaceL.asString),
        SessOp.enable, SessOp.configMode,
        SessOp.sendCommand ("interface " ++ ifaceL.asString),
        SessOp.sendCommand (desiredOf actionL),
        SessOp.exitConfigMode, SessOp.sessionClose]) := by
  have halready : (containsSeq shutdownChars cfg.data ==
      (desiredOf actionL == "shutdown")) = false := by
    cases hsw : startsWithShut actionL with
    | true =>
      rw [hne, hsw]
      simp [desiredOf, hsw]
    | false =>
      rw [hne, hsw]
      simp only [desiredOf, hsw, if_false, Bool.if_false_right]
      decide
  simp only [ifaceConfig_run, hp, runSession, hc, stepBind, opSend, opEnable,
    opConfigMode, opExitConfigMode, hs, halready, hen, hcm, hi, hdc, hx,
    Bool.false_eq_true, if_false]
  simp

/-- Witness for C4: a device whose running config lacks `"shutdown"`, asked
to shut the interface down. -/
theorem ifaceConfig_apply_witness :
    ifaceConfig_run (constDevice "interface Gi0/1\nend") "Gi0/1 shutdown" =
      ("[OK] " ++ (("Gi0/1" : String).data).asString ++ " を " ++
         desiredOf ("shutdown" : String).data ++ " しました。",
       [SessOp.sessionOpen,
        SessOp.sendCommand ("show run interface " ++ (("Gi0/1" : String).data).asString),
        SessOp.enable, SessOp.configMode,
        SessOp.sendCommand ("interface " ++ (("Gi0/1" : String).data).asString),
        SessOp.sendCommand (desiredOf ("shutdown" : String).data),
        SessOp.exitConfigMode, SessOp.sessionClose]) :=
  ifaceConfig_apply (constDevice "interface Gi0/1\nend") "Gi0/1 shutdown"
    ("Gi0/1" : String).data ("shutdown" : String).data
    "interface Gi0/1\nend" "interface Gi0/1\nend" "interface Gi0/1\nend"
    (by decide) rfl rfl (by decide) rfl rfl rfl rfl rfl

/-- C2 counterexample: on the empty Ping argument against a working device,
the run opens a session, sends `"ping "` and returns the device output
verbatim — it does not return a validation error and a session is opened. -/
theorem ping_empty_claim_false :
    (ping_run (constDevice "out") "").1 = "out" ∧
      isErrorMarked (ping_run (constDevice "out") "").1 = false ∧
      SessOp.sessionOpen ∈ (ping_run (constDevice "out") "").2 := by
  decide

/-- C2 amended: the empty Ping argument is not validated; the run opens a
session, issues the command `"ping "` (the literal prefix with the empty
target appended) and returns the device output verbatim. -/
theorem ping_empty_amended (dev : Device) (out : String)
    (hc : dev.connect = Except.ok ())
    (hs : dev.send_command "ping " = Except.ok out) :
    ping_run dev "" =
      (out, [SessOp.sessionOpen, SessOp.sendCommand "ping ",
        SessOp.sessionClose]) := by
  have hcmd : ("ping " ++ "" : String) = "ping " := by decide
  simp only [ping_run, runSession, opSend, hcmd, hc, hs]
  rfl

/-- Witness for the amended C2. -/
theorem ping_empty_amended_witness :
    ping_run (constDevice "out") "" =
      ("out", [SessOp.sessionOpen, SessOp.sendCommand "ping ",
        SessOp.sessionClose]) :=
  ping_empty_amended (constDevice "out") "out" rfl rfl

/-- C5: a RouteProto argument whose lowercase form is neither `"bgp"` nor
`"ospf"` yields the validation-error string with no session operation;
`"bgp"` selects `show ip bgp summary` and `"ospf"` selects
`show ip ospf neighbor`. -/
theorem routeProto_validation (dev : Device) (proto out : String) :
    (pyLower proto ≠ "bgp" → pyLower proto ≠ "ospf" →
      getRouteProtoState_run dev proto =
        ("[ERROR] proto must be 'bgp' or 'ospf'", [])) ∧
    (pyLower proto = "bgp" → dev.connect = Except.ok () →
      dev.send_command "show ip bgp summary" = Except.ok out →
      getRouteProtoState_run dev proto =
        (out, [SessOp.sessionOpen, SessOp.sendCommand "show ip bgp summary",
          SessOp.sessionClose])) ∧
    (pyLower proto = "ospf" → dev.connect = Except.ok () →
      dev.send_command "show ip ospf neighbor" = Except.ok out →
      getRouteProtoState_run dev proto =
        (out, [SessOp.sessionOpen, SessOp.sendCommand "show ip ospf neighbor",
          SessOp.sessionClose])) := by
  refine ⟨?_, ?_, ?_⟩
  · intro h1 h2
    have hm : cmd_map (pyLower proto) = none := by
      simp [cmd_map, h1, h2]
    simp only [getRouteProtoState_run, hm]
  · intro hb hcc hsc
    have hm : cmd_map (pyLower proto) = some "show ip bgp summary" := by
      simp [cmd_map, hb]
    simp only [getRouteProtoState_run, hm, runSession, opSend, hcc, hsc]
    rfl
  · intro hb hcc hsc
    have hm : cmd_map (pyLower proto) = some "show ip ospf neighbor" := by
      simp [cmd_map, hb]
    simp only [getRouteProtoState_run, hm, runSession, opSend, hcc, hsc]
    rfl

/-- Witness for C5 at `"RIP"` (validation error) and `"BGP"`
(case-insensitive command selection). -/
theorem routeProto_validation_witness :
    pyLower "RIP" ≠ "bgp" ∧ pyLower "RIP" ≠ "ospf" ∧
      getRouteProtoState_run (constDevice "out") "RIP" =
        ("[ERROR] proto must be 'bgp' or 'ospf'", []) ∧
      pyLower "BGP" = "bgp" ∧
      getRouteProtoState_run (constDevice "out") "BGP" =
        ("out", [SessOp.sessionOpen, SessOp.sendCommand "show ip bgp summary",
          SessOp.sessionClose]) :=
  ⟨by decide, by decide,
    (routeProto_validation (constDevice "out") "RIP" "out").1 (by decide) (by decide),
    by decide,
    (routeProto_validation (constDevice "out") "BGP" "out").2.1 (by decide) rfl rfl⟩

/-- C6: the command sent by RouteTable is `show ipv6 route` exactly when the
argument equals `"ipv6"` case-insensitively, and `show ip route` for every
other value, including the empty argument. -/
theorem routeTable_select (dev : Device) (protocol out : String) :
    (routeTableCmd protocol =
      if pyLower protocol = "ipv6" then "show ipv6 route" else "show ip route") ∧
    (dev.connect = Except.ok () →
      dev.send_command (routeTableCmd protocol) = Except.ok out →
      getRouteTable_run dev protocol =
        (out, [SessOp.sessionOpen, SessOp.sendCommand (routeTableCmd protocol),
          SessOp.sessionClose])) := by
  constructor
  · by_cases hv : pyLower protocol = "ipv6"
    · simp [routeTableCmd, hv]
    · simp [routeTableCmd, hv]
  · intro hcc hsc
    simp only [getRouteTable_run, runSession, opSend, hcc, hsc]
    rfl

/-- Witness for C6 at the empty argument (selects the IPv4 command). -/
theorem routeTable_select_witness :
    (routeTableCmd "" =
      if pyLower "" = "ipv6" then "show ipv6 route" else "show ip route") ∧
      getRouteTable_run (constDevice "out") "" =
        ("out", [SessOp.sessionOpen, SessOp.sendCommand (routeTableCmd ""),
          SessOp.sessionClose]) :=
  ⟨(routeTable_select (constDevice "out") "" "out").1,
    (routeTable_select (constDevice "out") "" "out").2 rfl rfl⟩

theorem isErrorMarked_append (e : String) :
    isErrorMarked ("[ERROR] " ++ e) = true := by
  unfold isErrorMarked
  rw [String.data_append, prefixOf_iff]
  exact List.prefix_append _ _

theorem isSkipMarked_append (e : String) :
    isSkipMarked ("[SKIP] " ++ e) = true := by
  unfold isSkipMarked
  rw [String.data_append, prefixOf_iff]
  exact List.prefix_append _ _

theorem isOkMarked_append (e : String) :
    isOkMarked ("[OK] " ++ e) = true := by
  unfold isOkMarked
  rw [String.data_append, prefixOf_iff]
  exact List.prefix_append _ _

/-- Every `runSession` result is either `[ERROR]`-marked (connection failure
or an exception in the body) or the body's normal return value. -/
theorem runSession_cases (dev : Device) (body : Device → Step String) :
    isErrorMarked (runSession dev body).1 = true ∨
      ∃ r tr, body dev = (Except.ok r, tr) ∧ (runSession dev body).1 = r := by
  unfold runSession
  cases hc : dev.connect with
  | error e =>
    left
    exact isErrorMarked_append e
  | ok u =>
    cases hb : body dev with
    | mk res tr =>
      cases res with
      | ok r =>
        right
        exact ⟨r, tr, rfl, rfl⟩
      | error e =>
        left
        exact isErrorMarked_append e

theorem stepBind_ok {α β : Type} (x : Step α) (f : α → Step β) (r : β)
    (tr : List SessOp) (h : stepBind x f = (Except.ok r, tr)) :
    ∃ a, x.1 = Except.ok a ∧ (f a).1 = Except.ok r := by
  obtain ⟨res, tr1⟩ := x
  cases res with
  | error e =>
    exact absurd (congrArg Prod.fst h) (by simp [stepBind])
  | ok a =>
    refine ⟨a, rfl, ?_⟩
    have := congrArg Prod.fst h
    simpa [stepBind] using this

theorem isErrorMarked_data (s : String)
    (h : ("[ERROR] " : String).data <+: s.data) : isErrorMarked s = true := by
  unfold isErrorMarked
  rw [prefixOf_iff]
  exact h

theorem isSkipMarked_data (s : String)
    (h : ("[SKIP] " : String).data <+: s.data) : isSkipMarked s = true := by
  unfold isSkipMarked
  rw [prefixOf_iff]
  exact h

theorem isOkMarked_data (s : String)
    (h : ("[OK] " : String).data <+: s.data) : isOkMarked s = true := by
  unfold isOkMarked
  rw [prefixOf_iff]
  exact h

/-- C8: no tool run ever escapes with an exception: for every device
behaviour (including failing connections and failing commands) and every
argument, each of the five runs returns a plain string that is either
`[ERROR] `-prefixed (every caught exception and every validation failure) or
one of the tool's normal results. -/
theorem tools_no_raise (dev : Device) (arg : String) :
    (isErrorMarked (getVersion_run dev).1 = true ∨
      ∃ out, dev.send_command "show version" = Except.ok out ∧
        (getVersion_run dev).1 = extract_version out) ∧
    (isErrorMarked (getRouteTable_run dev arg).1 = true ∨
      ∃ out, dev.send_command (routeTableCmd arg) = Except.ok out ∧
        (getRouteTable_run dev arg).1 = out) ∧
    (isErrorMarked (getRouteProtoState_run dev arg).1 = true ∨
      ∃ cmd out, cmd_map (pyLower arg) = some cmd ∧
        dev.send_command cmd = Except.ok out ∧
        (getRouteProtoState_run dev arg).1 = out) ∧
    (isErrorMarked (ping_run dev arg).1 = true ∨
      ∃ out, dev.send_command ("ping " ++ arg) = Except.ok out ∧
        (ping_run dev arg).1 = out) ∧
    (isErrorMarked (ifaceConfig_run dev arg).1 = true ∨
      isSkipMarked (ifaceConfig_run dev arg).1 = true ∨
      isOkMarked (ifaceConfig_run dev arg).1 = true) := by
  refine ⟨?_, ?_, ?_, ?_, ?_⟩
  · cases hc : dev.connect with
    | error e =>
      left
      simp only [getVersion_run, runSession, hc]
      exact isErrorMarked_append e
    | ok u =>
      cases hsc : dev.send_command "show version" with
      | error e =>
        left
        simp only [getVersion_run, runSession, hc, stepBind, opSend, hsc]
        exact isErrorMarked_append e
      | ok out =>
        right
        refine ⟨out, rfl, ?_⟩
        simp only [getVersion_run, runSession, hc, stepBind, opSend, hsc]
  · cases hc : dev.connect with
    | error e =>
      left
      simp only [getRouteTable_run, runSession, hc]
      exact isErrorMarked_append e
    | ok u =>
      cases hsc : dev.send_command (routeTableCmd arg) with
      | error e =>
        left
        simp only [getRouteTable_run, runSession, opSend, hc, hsc]
        exact isErrorMarked_append e
      | ok out =>
        right
        refine ⟨out, rfl, ?_⟩
        simp only [getRouteTable_run, runSession, opSend, hc, hsc]
  · cases hm : cmd_map (pyLower arg) with
    | none =>
      left
      simp only [getRouteProtoState_run, hm]
      decide
    | some cmd =>
      cases hc : dev.connect with
      | error e =>
        left
        simp only [getRouteProtoState_run, hm, runSession, hc]
        exact isErrorMarked_append e
      | ok u =>
        cases hsc : dev.send_command cmd with
        | error e =>
          left
          simp only [getRouteProtoState_run, hm, runSession, opSend, hc, hsc]
          exact isErrorMarked_append e
        | ok out =>
          right
          refine ⟨cmd, out, rfl, hsc, ?_⟩
          simp only [getRouteProtoState_run, hm, runSession, opSend, hc, hsc]
  · cases hc : dev.connect with
    | error e =>
      left
      simp only [ping_run, runSession, hc]
      exact isErrorMarked_append e
    | ok u =>
      cases hsc : dev.send_command ("ping " ++ arg) with
      | error e =>
        left
        simp only [ping_run, runSession, opSend, hc, hsc]
        exact isErrorMarked_append e
      | ok out =>
        right
        refine ⟨out, rfl, ?_⟩
        simp only [ping_run, runSession, opSend, hc, hsc]
  · cases hp : splitMax1 arg.data with
    | none =>
      left
      simp only [ifaceConfig_run, hp]
      decide
    | some p =>
      obtain ⟨ifaceL, actionL⟩ := p
      cases hc : dev.connect with
      | error e =>
        left
        simp only [ifaceConfig_run, hp, runSession, hc]
        exact isErrorMarked_append e
      | ok u =>
        cases hsc : dev.send_command ("show run interface " ++ ifaceL.asString) with
        | error e =>
          left
          simp only [ifaceConfig_run, hp, runSession, stepBind, opSend, hc, hsc]
          exact isErrorMarked_append e
        | ok cfg =>
          cases hal : (containsSeq shutdownChars cfg.data ==
              (desiredOf actionL == "shutdown")) with
          | true =>
            right
            left
            simp only [ifaceConfig_run, hp, runSession, stepBind, opSend, hc, hsc,
              hal, if_true]
            apply isSkipMarked_data
            simp only [String.data_append, List.append_assoc]
            exact List.prefix_append _ _
          | false =>
            cases hen : dev.enable with
            | error e =>
              left
              simp only [ifaceConfig_run, hp, runSession, stepBind, opSend, opEnable,
                hc, hsc, hal, Bool.false_eq_true, if_false, hen]
              exact isErrorMarked_append e
            | ok u2 =>
              cases hcm : dev.config_mode with
              | error e =>
                left
                simp only [ifaceConfig_run, hp, runSession, stepBind, opSend,
                  opEnable, opConfigMode, hc, hsc, hal, Bool.false_eq_true,
                  if_false, hen, hcm]
                exact isErrorMarked_append e
              | ok u3 =>
                cases hi : dev.send_command ("interface " ++ ifaceL.asString) with
                | error e =>
                  left
                  simp only [ifaceConfig_run, hp, runSession, stepBind, opSend,
                    opEnable, opConfigMode, hc, hsc, hal, Bool.false_eq_true,
                    if_false, hen, hcm, hi]
                  exact isErrorMarked_append e
                | ok o1 =>
                  cases hd2 : dev.send_command (desiredOf actionL) with
                  | error e =>
                    left
                    simp only [ifaceConfig_run, hp, runSession, stepBind, opSend,
                      opEnable, opConfigMode, hc, hsc, hal, Bool.false_eq_true,
                      if_false, hen, hcm, hi, hd2]
                    exact isErrorMarked_append e
                  | ok o2 =>
                    cases hx : dev.exit_config_mode with
                    | error e =>
                      left
                      simp only [ifaceConfig_run, hp, runSession, stepBind, opSend,
                        opEnable, opConfigMode, opExitConfigMode, hc, hsc, hal,
                        Bool.false_eq_true, if_false, hen, hcm, hi, hd2, hx]
                      exact isErrorMarked_append e
                    | ok u4 =>
                      right
                      right
                      simp only [ifaceConfig_run, hp, runSession, stepBind, opSend,
                        opEnable, opConfigMode, opExitConfigMode, hc, hsc, hal,
                        Bool.false_eq_true, if_false, hen, hcm, hi, hd2, hx]
                      apply isOkMarked_data
                      simp only [String.data_append, List.append_assoc]
                      exact List.prefix_append _ _
